import Mathlib

/-!
Shallow embedding of the twil signaling server (`src/unnamed/part_000`,
`src/redisClient.js`), covering the in-process state and the Socket.IO
event handlers: `join_queue`, `leave_queue`, `signal`, `relay_msg`,
`report` and `disconnect`.

We model the deployment without a shared Redis backend (`REDIS_URL`
absent, so `redisClient = null` in `redisClient.js`): every queue-store
call in the source then takes its in-memory branch
(`inMemoryQueues`).  JavaScript `Map`s are embedded as association
lists (`Map.get` reads the first matching key, `Map.set` replaces it in
place or appends a new entry, iteration follows entry order), socket
ids and filter keys as `String`, and the per-socket mutable fields
`socket.data.filterKey` / `socket.data.sessionId` as maps keyed by
socket id.  Outbound Socket.IO emissions are collected in a list; an
`io.to(target)` emission is delivered exactly when `target` is a
currently connected socket (its own room), while `socket.emit` on the
handling socket always delivers (handlers only run for connected
sockets).
-/

namespace Twil

/-- JavaScript `Map.get`: the value of the first entry with the given key. -/
def alGet {α : Type} : List (String × α) → String → Option α
  | [], _ => none
  | (k, v) :: rest, key => if k = key then some v else alGet rest key

/-- JavaScript `Map.set`: replace the first entry with the given key, or append. -/
def alSet {α : Type} : List (String × α) → String → α → List (String × α)
  | [], key, v => [(key, v)]
  | (k, w) :: rest, key, v =>
      if k = key then (key, v) :: rest else (k, w) :: alSet rest key v

/-- A session record `{ a: socket.id, b: peer }` from the `join_queue` handler. -/
structure SessionPair where
  a : String
  b : String
deriving DecidableEq, Repr

/-- The in-memory waiting queues: `inMemoryQueues : Map filterKey (array of socket ids)`. -/
abbrev Queues := List (String × List String)

/-- The mutable server state of `part_000`: the three module-level maps
(`inMemoryQueues`, `activeSessions`, `abuseScores`), the per-socket
`socket.data` fields, and the set of currently connected sockets. -/
structure ServerState where
  inMemoryQueues : Queues
  activeSessions : List (String × SessionPair)
  abuseScores : List (String × Nat)
  filterKeyOf : List (String × String)
  sessionIdOf : List (String × String)
  connected : List String
deriving DecidableEq, Repr

/-- The empty state at server start. -/
def initState : ServerState :=
  { inMemoryQueues := [], activeSessions := [], abuseScores := []
    filterKeyOf := [], sessionIdOf := [], connected := [] }

/-- Outbound Socket.IO events, each carrying the addressee socket id first. -/
inductive Emit where
  | queued (toSock : String)
  | matched (toSock sessionId peerSocketId : String)
  | leftQueue (toSock : String)
  | signal (toSock sender data : String)
  | relayMsg (toSock sender text : String)
  | kicked (toSock reason : String)
  | peerLeft (toSock : String)
deriving DecidableEq, Repr

/-- `io.to(target).emit(e)`: delivered exactly when `target` is a connected
socket (every socket is in the room named by its own id). -/
def emitTo (conn : List String) (target : String) (e : Emit) : List Emit :=
  if target ∈ conn then [e] else []

/-- `makeFilterKey`: `'all'` for an absent or empty filter object, otherwise
`JSON.stringify(filters)`.  A JS object is modelled as its ordered list of
key/value pairs (insertion order), values already serialized; `JSON.stringify`
serializes the pairs in that order. -/
def jsonOfPairs (fs : List (String × String)) : String :=
  "\x7b" ++ String.intercalate "," (fs.map (fun p => "\"" ++ p.1 ++ "\":" ++ p.2)) ++ "\x7d"

def makeFilterKey : Option (List (String × String)) → String
  | none => "all"
  | some fs => if fs.isEmpty then "all" else jsonOfPairs fs

/-- `pushWaiting` (in-memory branch): append the socket id to the queue. -/
def pushWaiting (qs : Queues) (fk x : String) : Queues :=
  alSet qs fk (((alGet qs fk).getD []) ++ [x])

/-- `popWaiting` (in-memory branch): `arr.shift() || null`; the head is
removed and returned, with the falsy empty string coerced to `null`. -/
def popWaiting (qs : Queues) (fk : String) : Option String × Queues :=
  let arr := (alGet qs fk).getD []
  (match arr.head? with
   | some v => if v = "" then none else some v
   | none => none,
   alSet qs fk arr.tail)

/-- `removeFromQueue` (in-memory branch): filter out every occurrence. -/
def removeFromQueue (qs : Queues) (fk x : String) : Queues :=
  alSet qs fk (((alGet qs fk).getD []).filter (fun i => i != x))

/-- The `join_queue` handler.  `fresh` models the `uuidv4()` result used to
mint the session id. -/
def handleJoinQueue (st : ServerState) (sid : String)
    (filters : Option (List (String × String))) (fresh : String) :
    ServerState × List Emit :=
  let fk := makeFilterKey filters
  let st0 := { st with filterKeyOf := alSet st.filterKeyOf sid fk }
  let pr := popWaiting st0.inMemoryQueues fk
  let st1 := { st0 with inMemoryQueues := pr.2 }
  match pr.1 with
  | some peer =>
    if peer = sid then
      ({ st1 with inMemoryQueues := pushWaiting st1.inMemoryQueues fk sid },
       [Emit.queued sid])
    else
      let sessionId := "sess_" ++ fresh
      let st2 := { st1 with
        activeSessions := alSet st1.activeSessions sessionId ⟨sid, peer⟩
        sessionIdOf := alSet st1.sessionIdOf sid sessionId }
      let st3 := if peer ∈ st2.connected
        then { st2 with sessionIdOf := alSet st2.sessionIdOf peer sessionId }
        else st2
      (st3, Emit.matched sid sessionId peer ::
            emitTo st3.connected peer (Emit.matched peer sessionId sid))
  | none =>
      ({ st1 with inMemoryQueues := pushWaiting st1.inMemoryQueues fk sid },
       [Emit.queued sid])

/-- The `leave_queue` handler: `if (!fk) return;` then remove and emit. -/
def handleLeaveQueue (st : ServerState) (sid : String) : ServerState × List Emit :=
  match alGet st.filterKeyOf sid with
  | none => (st, [])
  | some fk =>
    if fk = "" then (st, [])
    else ({ st with inMemoryQueues := removeFromQueue st.inMemoryQueues fk sid },
          [Emit.leftQueue sid])

/-- The `signal` handler: `if (!to) return;` then forward verbatim tagged
with the sender.  `none` models an absent `to`; the empty string is falsy. -/
def handleSignal (st : ServerState) (sid : String) (toSock : Option String)
    (data : String) : ServerState × List Emit :=
  match toSock with
  | none => (st, [])
  | some t =>
    if t = "" then (st, [])
    else (st, emitTo st.connected t (Emit.signal t sid data))

/-- The `relay_msg` handler, identical in shape to `signal`. -/
def handleRelayMsg (st : ServerState) (sid : String) (toSock : Option String)
    (text : String) : ServerState × List Emit :=
  match toSock with
  | none => (st, [])
  | some t =>
    if t = "" then (st, [])
    else (st, emitTo st.connected t (Emit.relayMsg t sid text))

/-- The `disconnect` handler: the socket leaves the connected set, is
filtered out of every in-memory queue entry, and every session it occupies
is deleted after `peer_left` is addressed to the other slot. -/
def handleDisconnect (st : ServerState) (sid : String) : ServerState × List Emit :=
  let conn := st.connected.filter (fun c => c != sid)
  let qs := st.inMemoryQueues.map (fun e => (e.1, e.2.filter (fun i => i != sid)))
  let involved := st.activeSessions.filter (fun e => e.2.a == sid || e.2.b == sid)
  let sess := st.activeSessions.filter (fun e => !(e.2.a == sid || e.2.b == sid))
  let emits := involved.flatMap
    (fun e => emitTo conn (if e.2.a = sid then e.2.b else e.2.a)
                (Emit.peerLeft (if e.2.a = sid then e.2.b else e.2.a)))
  ({ st with connected := conn, inMemoryQueues := qs, activeSessions := sess },
   emits)

/-- The `report` handler: resolve the session (silent no-op when absent),
increment the score of the non-reporter slot, and past the threshold kick
and force-disconnect that socket (`otherSock.disconnect(true)` fires the
`disconnect` handler). -/
def handleReport (st : ServerState) (sid : String) (sessionId : String) :
    ServerState × List Emit :=
  match alGet st.activeSessions sessionId with
  | none => (st, [])
  | some pair =>
    let other := if pair.a = sid then pair.b else pair.a
    let newScore := (alGet st.abuseScores other).getD 0 + 1
    let st1 := { st with abuseScores := alSet st.abuseScores other newScore }
    if newScore > 3 then
      if other ∈ st1.connected then
        let r := handleDisconnect st1 other
        (r.1, Emit.kicked other "abuse" :: r.2)
      else (st1, [])
    else (st1, [])

/-- Inbound transport events, each tagged with the emitting socket id. -/
inductive Event where
  | connect (sid : String)
  | joinQueue (sid : String) (filters : Option (List (String × String))) (fresh : String)
  | leaveQueue (sid : String)
  | signal (sid : String) (toSock : Option String) (data : String)
  | relayMsg (sid : String) (toSock : Option String) (text : String)
  | report (sid : String) (sessionId : String)
  | disconnect (sid : String)
deriving DecidableEq, Repr

/-- One transport step.  A new connection starts with fresh `socket.data`;
handlers only run for currently connected sockets. -/
def step (st : ServerState) : Event → ServerState × List Emit
  | Event.connect sid =>
      if sid ∈ st.connected then (st, [])
      else ({ st with connected := sid :: st.connected
                      filterKeyOf := st.filterKeyOf.filter (fun e => e.1 != sid)
                      sessionIdOf := st.sessionIdOf.filter (fun e => e.1 != sid) }, [])
  | Event.joinQueue sid filters fresh =>
      if sid ∈ st.connected then handleJoinQueue st sid filters fresh else (st, [])
  | Event.leaveQueue sid =>
      if sid ∈ st.connected then handleLeaveQueue st sid else (st, [])
  | Event.signal sid toSock data =>
      if sid ∈ st.connected then handleSignal st sid toSock data else (st, [])
  | Event.relayMsg sid toSock text =>
      if sid ∈ st.connected then handleRelayMsg st sid toSock text else (st, [])
  | Event.report sid sessionId =>
      if sid ∈ st.connected then handleReport st sid sessionId else (st, [])
  | Event.disconnect sid =>
      if sid ∈ st.connected then handleDisconnect st sid else (st, [])

/-- Run a sequence of transport events, collecting all emissions. -/
def runEvents (st : ServerState) : List Event → ServerState × List Emit
  | [] => (st, [])
  | e :: es =>
    let r := step st e
    let r2 := runEvents r.1 es
    (r2.1, r.2 ++ r2.2)

/-- The queue currently stored under a filter key (empty when absent). -/
def queueList (st : ServerState) (k : String) : List String :=
  (alGet st.inMemoryQueues k).getD []

/-- The session entries a given participant occupies (either slot). -/
def sessList (st : ServerState) (x : String) : List (String × SessionPair) :=
  st.activeSessions.filter (fun e => e.2.a == x || e.2.b == x)

/-- The participant occurs in no in-memory queue entry. -/
def freeOfQueues (st : ServerState) (x : String) : Prop :=
  ∀ e ∈ st.inMemoryQueues, x ∉ e.2

/-- The participant occupies no slot of any active session. -/
def freeOfSessions (st : ServerState) (x : String) : Prop :=
  ∀ e ∈ st.activeSessions, e.2.a ≠ x ∧ e.2.b ≠ x

instance (st : ServerState) (x : String) : Decidable (freeOfQueues st x) :=
  inferInstanceAs (Decidable (∀ e ∈ st.inMemoryQueues, x ∉ e.2))

instance (st : ServerState) (x : String) : Decidable (freeOfSessions st x) :=
  inferInstanceAs (Decidable (∀ e ∈ st.activeSessions, e.2.a ≠ x ∧ e.2.b ≠ x))

/-- Per-key multiplicity of a participant in the waiting queues. -/
def qCount (st : ServerState) (x k : String) : Nat := (queueList st k).count x

/-- The per-participant part of the matchmaking invariant: at most one
occurrence across all waiting queues, no queue membership while in an
active session, and at most one active session. -/
def PIdInv (st : ServerState) (x : String) : Prop :=
  (∀ k, qCount st x k ≤ 1) ∧
  (∀ k1 k2, 0 < qCount st x k1 → 0 < qCount st x k2 → k1 = k2) ∧
  (∀ k, 0 < qCount st x k → sessList st x = []) ∧
  (sessList st x).length ≤ 1

/-- The matchmaking invariant for every participant identifier. -/
def Inv (st : ServerState) : Prop := ∀ x, PIdInv st x

/-- Every stored session pairs two distinct socket ids. -/
def SessOK (st : ServerState) : Prop := ∀ e ∈ st.activeSessions, e.2.a ≠ e.2.b

/-- The precondition under which `join_queue` keeps the invariant: the
joining socket is not already waiting or in a session, and the freshly
minted session token is unused (the `uuidv4` uniqueness assumption). -/
def JoinGuard (st : ServerState) : Event → Prop
  | Event.joinQueue sid _ fresh =>
      freeOfQueues st sid ∧ freeOfSessions st sid ∧
      alGet st.activeSessions ("sess_" ++ fresh) = none
  | _ => True

instance (st : ServerState) : (e : Event) → Decidable (JoinGuard st e)
  | Event.connect _ => .isTrue trivial
  | Event.joinQueue sid _ fresh =>
      inferInstanceAs (Decidable (freeOfQueues st sid ∧ freeOfSessions st sid ∧
        alGet st.activeSessions ("sess_" ++ fresh) = none))
  | Event.leaveQueue _ => .isTrue trivial
  | Event.signal _ _ _ => .isTrue trivial
  | Event.relayMsg _ _ _ => .isTrue trivial
  | Event.report _ _ => .isTrue trivial
  | Event.disconnect _ => .isTrue trivial

/-- Every `join_queue` in a trace satisfies `JoinGuard` at its point of
execution. -/
def GuardedRun : ServerState → List Event → Prop
  | _, [] => True
  | st, e :: es => JoinGuard st e ∧ GuardedRun (step st e).1 es

instance instDecGuardedRun : (st : ServerState) → (es : List Event) → Decidable (GuardedRun st es)
  | _, [] => .isTrue trivial
  | st, e :: es => @instDecidableAnd _ _ _ (instDecGuardedRun (step st e).1 es)

/-- Concrete trace refuting C1: one participant joins twice with different
filters and ends up waiting in two queues at once. -/
def c1Trace : List Event :=
  [Event.connect "X",
   Event.joinQueue "X" (some [("a", "p")]) "u1",
   Event.joinQueue "X" (some [("b", "q")]) "u2"]

/-- Concrete guarded trace exercising the amended C1 invariant. -/
def c1wTrace : List Event :=
  [Event.connect "X", Event.joinQueue "X" none "u1",
   Event.connect "Y", Event.joinQueue "Y" none "u2"]

/-- Concrete trace for C3: "Y" is reported once and then disconnects. -/
def c3Trace : List Event :=
  [Event.connect "X", Event.connect "Y",
   Event.joinQueue "X" none "u0", Event.joinQueue "Y" none "u1",
   Event.report "X" "sess_u1", Event.disconnect "Y"]

/-- Concrete trace for C8: "X" is queued, then matched away by "Y", so "X"
is no longer in any waiting queue when it sends `leave_queue`. -/
def c8Trace : List Event :=
  [Event.connect "X", Event.connect "Y",
   Event.joinQueue "X" none "u0", Event.joinQueue "Y" none "u1"]

/-- A two-party matched state used by witnesses: sockets "A" and "B" are
connected and paired under session "s1", with "B" already at 3 reports. -/
def wMatchedSt : ServerState :=
  { inMemoryQueues := [("all", [])]
    activeSessions := [("s1", ⟨"A", "B"⟩)]
    abuseScores := [("B", 3)]
    filterKeyOf := [("A", "all"), ("B", "all")]
    sessionIdOf := [("A", "s1"), ("B", "s1")]
    connected := ["A", "B"] }

/-- A state with one queued participant "Q" and no sessions. -/
def wQueuedSt : ServerState :=
  { inMemoryQueues := [("all", ["Q"])]
    activeSessions := []
    abuseScores := []
    filterKeyOf := [("Q", "all")]
    sessionIdOf := []
    connected := ["Q"] }

/- ------------------------------------------------------------------ -/
/- Association-list lemmas (JavaScript `Map` semantics)               -/
/- ------------------------------------------------------------------ -/

theorem alGet_alSet_self {α : Type} (qs : List (String × α)) (k : String) (v : α) :
    alGet (alSet qs k v) k = some v := by
  induction qs with
  | nil => simp [alGet, alSet]
  | cons e rest ih =>
    obtain ⟨k', w⟩ := e
    by_cases h : k' = k <;> simp [alGet, alSet, h, ih]

theorem alGet_alSet_ne {α : Type} (qs : List (String × α)) (k k' : String) (v : α)
    (h : k' ≠ k) : alGet (alSet qs k v) k' = alGet qs k' := by
  induction qs with
  | nil => simp [alGet, alSet, Ne.symm h]
  | cons e rest ih =>
    obtain ⟨k0, w⟩ := e
    by_cases h0 : k0 = k <;> by_cases h1 : k0 = k' <;>
      simp_all [alGet, alSet, Ne.symm h]

theorem alSet_alSet {α : Type} (qs : List (String × α)) (k : String) (v w : α) :
    alSet (alSet qs k v) k w = alSet qs k w := by
  induction qs with
  | nil => simp [alSet]
  | cons e rest ih =>
    obtain ⟨k0, w0⟩ := e
    by_cases h : k0 = k <;> simp [alSet, h, ih]

theorem mem_alSet {α : Type} {qs : List (String × α)} {k : String} {v : α}
    {e : String × α} (h : e ∈ alSet qs k v) : e = (k, v) ∨ e ∈ qs := by
  induction qs with
  | nil => simpa [alSet] using h
  | cons e0 rest ih =>
    obtain ⟨k0, w0⟩ := e0
    by_cases h0 : k0 = k
    · simp only [alSet, if_pos h0, List.mem_cons] at h
      rcases h with h | h
      · exact Or.inl h
      · exact Or.inr (List.mem_cons_of_mem _ h)
    · simp only [alSet, if_neg h0, List.mem_cons] at h
      rcases h with h | h
      · exact Or.inr (h ▸ List.mem_cons_self _ _)
      · rcases ih h with h | h
        · exact Or.inl h
        · exact Or.inr (List.mem_cons_of_mem _ h)

theorem alGet_mem {α : Type} {qs : List (String × α)} {k : String} {v : α}
    (h : alGet qs k = some v) : (k, v) ∈ qs := by
  induction qs with
  | nil => simp [alGet] at h
  | cons e rest ih =>
    obtain ⟨k0, w0⟩ := e
    by_cases h0 : k0 = k
    · simp only [alGet, if_pos h0] at h
      cases h
      subst h0
      exact List.mem_cons_self _ _
    · simp only [alGet, if_neg h0] at h
      exact List.mem_cons_of_mem _ (ih h)

theorem alGet_none_forall {α : Type} {qs : List (String × α)} {k : String}
    (h : alGet qs k = none) : ∀ e ∈ qs, e.1 ≠ k := by
  induction qs with
  | nil => simp
  | cons e0 rest ih =>
    obtain ⟨k0, w0⟩ := e0
    by_cases h0 : k0 = k
    · simp [alGet, h0] at h
    · simp only [alGet, if_neg h0] at h
      intro e he
      rcases List.mem_cons.mp he with he | he
      · subst he; exact h0
      · exact ih h e he

theorem alSet_of_none {α : Type} {qs : List (String × α)} {k : String} (v : α)
    (h : alGet qs k = none) : alSet qs k v = qs ++ [(k, v)] := by
  induction qs with
  | nil => simp [alSet]
  | cons e0 rest ih =>
    obtain ⟨k0, w0⟩ := e0
    by_cases h0 : k0 = k
    · simp [alGet, h0] at h
    · simp only [alGet, if_neg h0] at h
      simp [alSet, h0, ih h]

theorem alGet_map_snd {α β : Type} (g : α → β) (qs : List (String × α)) (k : String) :
    alGet (qs.map (fun e => (e.1, g e.2))) k = (alGet qs k).map g := by
  induction qs with
  | nil => simp [alGet]
  | cons e0 rest ih =>
    obtain ⟨k0, w0⟩ := e0
    by_cases h0 : k0 = k <;> simp [alGet, h0, ih]

theorem alGet_of_mem_nodup {α : Type} {qs : List (String × α)}
    (hnd : (qs.map Prod.fst).Nodup) {k : String} {v : α} (h : (k, v) ∈ qs) :
    alGet qs k = some v := by
  induction qs with
  | nil => simp at h
  | cons e0 rest ih =>
    obtain ⟨k0, w0⟩ := e0
    simp only [List.map_cons, List.nodup_cons] at hnd
    rcases List.mem_cons.mp h with h | h
    · cases h
      simp [alGet]
    · have hk0 : k0 ≠ k := by
        intro he
        exact hnd.1 (he ▸ (List.mem_map.mpr ⟨(k, v), h, rfl⟩))
      simp [alGet, hk0, ih hnd.2 h]

theorem alGet_none_filter {α : Type} (p : String × α → Bool) {qs : List (String × α)}
    {k : String} (h : alGet qs k = none) : alGet (qs.filter p) k = none := by
  induction qs with
  | nil => simp [alGet]
  | cons e0 rest ih =>
    obtain ⟨k0, w0⟩ := e0
    by_cases h0 : k0 = k
    · simp [alGet, h0] at h
    · simp only [alGet, if_neg h0] at h
      by_cases hp : p (k0, w0) <;> simp [List.filter_cons, hp, alGet, h0, ih h]

theorem alGet_filter_nodup {α : Type} (p : String × α → Bool) {qs : List (String × α)}
    (hnd : (qs.map Prod.fst).Nodup) {k : String} {v : α} (h : alGet qs k = some v) :
    alGet (qs.filter p) k = if p (k, v) then some v else none := by
  induction qs with
  | nil => simp [alGet] at h
  | cons e0 rest ih =>
    obtain ⟨k0, w0⟩ := e0
    simp only [List.map_cons, List.nodup_cons] at hnd
    by_cases h0 : k0 = k
    · subst h0
      simp only [alGet, if_pos rfl] at h
      cases h
      have hrest : alGet rest k0 = none := by
        cases hr : alGet rest k0 with
        | none => rfl
        | some w =>
          exact absurd (List.mem_map.mpr ⟨(k0, w), alGet_mem hr, rfl⟩) hnd.1
      by_cases hp : p (k0, v) <;>
        simp [List.filter_cons, hp, alGet, alGet_none_filter p hrest]
    · simp only [alGet, if_neg h0] at h
      by_cases hp : p (k0, w0) <;> simp [List.filter_cons, hp, alGet, h0, ih hnd.2 h]

theorem filter_swap {α : Type} (l : List α) (p q : α → Bool) :
    (l.filter p).filter q = (l.filter q).filter p := by
  simp only [List.filter_filter]
  exact List.filter_congr (fun a _ => by rw [Bool.and_comm])

/- ------------------------------------------------------------------ -/
/- Projection lemmas for the handlers                                 -/
/- ------------------------------------------------------------------ -/

theorem abuseScores_handleDisconnect (st : ServerState) (d : String) :
    (handleDisconnect st d).1.abuseScores = st.abuseScores := rfl

theorem connected_handleDisconnect (st : ServerState) (d : String) :
    (handleDisconnect st d).1.connected = st.connected.filter (fun c => c != d) := rfl

theorem sessions_handleDisconnect (st : ServerState) (d : String) :
    (handleDisconnect st d).1.activeSessions =
      st.activeSessions.filter (fun e => !(e.2.a == d || e.2.b == d)) := rfl

theorem queueList_handleDisconnect (st : ServerState) (d k : String) :
    queueList (handleDisconnect st d).1 k = (queueList st k).filter (fun i => i != d) := by
  unfold queueList
  show ((alGet (st.inMemoryQueues.map
      (fun e => (e.1, e.2.filter (fun i => i != d)))) k).getD []) = _
  rw [alGet_map_snd]
  cases hq : alGet st.inMemoryQueues k <;> simp [hq]

theorem sessList_handleDisconnect (st : ServerState) (d x : String) :
    sessList (handleDisconnect st d).1 x =
      (sessList st x).filter (fun e => !(e.2.a == d || e.2.b == d)) := by
  show (st.activeSessions.filter _).filter _ = _
  rw [filter_swap]
  rfl

theorem handleDisconnect_emits_peerLeft (st : ServerState) (d : String) :
    ∀ e ∈ (handleDisconnect st d).2, ∃ t, e = Emit.peerLeft t := by
  intro e he
  simp only [handleDisconnect, emitTo, List.mem_flatMap] at he
  obtain ⟨a, _, he⟩ := he
  by_cases hc : (if a.2.a = d then a.2.b else a.2.a) ∈ st.connected.filter (fun c => c != d)
  · rw [if_pos hc] at he
    simp only [List.mem_singleton] at he
    exact ⟨_, he⟩
  · rw [if_neg hc] at he
    simp at he

/-- Report against an absent session id is a silent no-op (shared by
several proofs below). -/
theorem report_noop_of_none {st : ServerState} {r sessId : String}
    (h : alGet st.activeSessions sessId = none) :
    handleReport st r sessId = (st, []) := by
  simp [handleReport, h]

/-- `freeOfQueues` in counting form. -/
theorem qCount_eq_zero_of_free {st : ServerState} {x : String}
    (h : freeOfQueues st x) : ∀ k, qCount st x k = 0 := by
  intro k
  unfold qCount queueList
  cases hq : alGet st.inMemoryQueues k with
  | none => simp
  | some arr =>
    simp only [Option.getD_some]
    exact List.count_eq_zero.mpr (h (k, arr) (alGet_mem hq))

/-- `freeOfSessions` in `sessList` form. -/
theorem sessList_eq_nil_of_free {st : ServerState} {x : String}
    (h : freeOfSessions st x) : sessList st x = [] := by
  unfold sessList
  rw [List.filter_eq_nil_iff]
  intro e he
  have := h e he
  simp [this.1, this.2]

/- ------------------------------------------------------------------ -/
/- Invariant machinery                                                -/
/- ------------------------------------------------------------------ -/

theorem pidinv_shrink {st st' : ServerState} {x : String}
    (hq : ∀ k, qCount st' x k ≤ qCount st x k)
    (hlen : (sessList st' x).length ≤ (sessList st x).length)
    (hnil : sessList st x = [] → sessList st' x = [])
    (h : PIdInv st x) : PIdInv st' x := by
  obtain ⟨h1, h2, h3, h4⟩ := h
  refine ⟨fun k => le_trans (hq k) (h1 k), ?_, ?_, le_trans hlen h4⟩
  · intro k1 k2 p1 p2
    exact h2 k1 k2 (lt_of_lt_of_le p1 (hq k1)) (lt_of_lt_of_le p2 (hq k2))
  · intro k p
    exact hnil (h3 k (lt_of_lt_of_le p (hq k)))

theorem inv_shrink {st st' : ServerState}
    (hq : ∀ x k, qCount st' x k ≤ qCount st x k)
    (hlen : ∀ x, (sessList st' x).length ≤ (sessList st x).length)
    (hnil : ∀ x, sessList st x = [] → sessList st' x = [])
    (h : Inv st) : Inv st' :=
  fun x => pidinv_shrink (hq x) (hlen x) (hnil x) (h x)

theorem inv_of_proj_eq {st st' : ServerState}
    (hq : st'.inMemoryQueues = st.inMemoryQueues)
    (hs : st'.activeSessions = st.activeSessions)
    (h : Inv st) : Inv st' := by
  have hqc : ∀ x k, qCount st' x k = qCount st x k := by
    intro x k; simp [qCount, queueList, hq]
  have hsl : ∀ x, sessList st' x = sessList st x := by
    intro x; simp [sessList, hs]
  exact inv_shrink (fun x k => (hqc x k).le)
    (fun x => (congrArg List.length (hsl x)).le)
    (fun x hx => (hsl x).trans hx) h

theorem inv_handleDisconnect {st : ServerState} (d : String) (h : Inv st) :
    Inv (handleDisconnect st d).1 := by
  refine inv_shrink (fun x k => ?_) (fun x => ?_) (fun x hx => ?_) h
  · rw [qCount, queueList_handleDisconnect]
    exact (List.filter_sublist _).count_le x
  · rw [sessList_handleDisconnect]
    exact (List.filter_sublist _).length_le
  · rw [sessList_handleDisconnect, hx]
    rfl

/- ------------------------------------------------------------------ -/
/- Characterizations of the handler branches                          -/
/- ------------------------------------------------------------------ -/

theorem handleLeaveQueue_none {st : ServerState} {d : String}
    (h : alGet st.filterKeyOf d = none) : handleLeaveQueue st d = (st, []) := by
  simp [handleLeaveQueue, h]

theorem handleLeaveQueue_some {st : ServerState} {d fk : String}
    (h : alGet st.filterKeyOf d = some fk) (hne : fk ≠ "") :
    handleLeaveQueue st d =
      ({ st with inMemoryQueues := removeFromQueue st.inMemoryQueues fk d },
       [Emit.leftQueue d]) := by
  simp [handleLeaveQueue, h, hne]

theorem handleJoinQueue_nil {st : ServerState} {sid : String}
    {fs : Option (List (String × String))} {fresh : String}
    (harr : queueList st (makeFilterKey fs) = []) :
    handleJoinQueue st sid fs fresh =
      ({ st with filterKeyOf := alSet st.filterKeyOf sid (makeFilterKey fs)
                 inMemoryQueues := alSet st.inMemoryQueues (makeFilterKey fs) [sid] },
       [Emit.queued sid]) := by
  rw [queueList] at harr
  simp only [handleJoinQueue, popWaiting, pushWaiting]
  simp [harr, alGet_alSet_self, alSet_alSet]

theorem handleJoinQueue_self {st : ServerState} {sid : String}
    {fs : Option (List (String × String))} {fresh : String} {rest : List String}
    (harr : queueList st (makeFilterKey fs) = sid :: rest) (hsid : sid ≠ "") :
    handleJoinQueue st sid fs fresh =
      ({ st with filterKeyOf := alSet st.filterKeyOf sid (makeFilterKey fs)
                 inMemoryQueues := alSet st.inMemoryQueues (makeFilterKey fs) (rest ++ [sid]) },
       [Emit.queued sid]) := by
  rw [queueList] at harr
  simp only [handleJoinQueue, popWaiting, pushWaiting]
  simp [harr, hsid, alGet_alSet_self, alSet_alSet]

theorem handleJoinQueue_empty_head {st : ServerState} {sid : String}
    {fs : Option (List (String × String))} {fresh : String} {rest : List String}
    (harr : queueList st (makeFilterKey fs) = "" :: rest) :
    handleJoinQueue st sid fs fresh =
      ({ st with filterKeyOf := alSet st.filterKeyOf sid (makeFilterKey fs)
                 inMemoryQueues := alSet st.inMemoryQueues (makeFilterKey fs) (rest ++ [sid]) },
       [Emit.queued sid]) := by
  rw [queueList] at harr
  simp only [handleJoinQueue, popWaiting, pushWaiting]
  simp [harr, alGet_alSet_self, alSet_alSet]

theorem handleJoinQueue_matched {st : ServerState} {sid : String}
    {fs : Option (List (String × String))} {fresh peer : String} {rest : List String}
    (harr : queueList st (makeFilterKey fs) = peer :: rest)
    (hpe : peer ≠ "") (hps : peer ≠ sid) :
    (handleJoinQueue st sid fs fresh).1.inMemoryQueues
        = alSet st.inMemoryQueues (makeFilterKey fs) rest ∧
    (handleJoinQueue st sid fs fresh).1.activeSessions
        = alSet st.activeSessions ("sess_" ++ fresh) ⟨sid, peer⟩ ∧
    (handleJoinQueue st sid fs fresh).1.connected = st.connected ∧
    (handleJoinQueue st sid fs fresh).2
        = Emit.matched sid ("sess_" ++ fresh) peer ::
          emitTo st.connected peer (Emit.matched peer ("sess_" ++ fresh) sid) := by
  rw [queueList] at harr
  simp only [handleJoinQueue, popWaiting, pushWaiting]
  simp only [harr]
  by_cases hc : peer ∈ st.connected <;> simp [hpe, hps, hc]

theorem handleReport_low {st : ServerState} {r sessId : String} {p : SessionPair}
    (h : alGet st.activeSessions sessId = some p)
    (hlow : ¬ ((alGet st.abuseScores (if p.a = r then p.b else p.a)).getD 0 + 1 > 3)) :
    handleReport st r sessId =
      ({ st with abuseScores := alSet st.abuseScores (if p.a = r then p.b else p.a)
                   ((alGet st.abuseScores (if p.a = r then p.b else p.a)).getD 0 + 1) },
       []) := by
  simp [handleReport, h, hlow]

theorem handleReport_kick {st : ServerState} {r sessId : String} {p : SessionPair}
    (h : alGet st.activeSessions sessId = some p)
    (hhigh : (alGet st.abuseScores (if p.a = r then p.b else p.a)).getD 0 + 1 > 3)
    (hconn : (if p.a = r then p.b else p.a) ∈ st.connected) :
    handleReport st r sessId =
      ((handleDisconnect
          { st with abuseScores := alSet st.abuseScores (if p.a = r then p.b else p.a)
                      ((alGet st.abuseScores (if p.a = r then p.b else p.a)).getD 0 + 1) }
          (if p.a = r then p.b else p.a)).1,
       Emit.kicked (if p.a = r then p.b else p.a) "abuse" ::
         (handleDisconnect
            { st with abuseScores := alSet st.abuseScores (if p.a = r then p.b else p.a)
                        ((alGet st.abuseScores (if p.a = r then p.b else p.a)).getD 0 + 1) }
            (if p.a = r then p.b else p.a)).2) := by
  simp [handleReport, h, hhigh, hconn]

theorem handleReport_kick_gone {st : ServerState} {r sessId : String} {p : SessionPair}
    (h : alGet st.activeSessions sessId = some p)
    (hhigh : (alGet st.abuseScores (if p.a = r then p.b else p.a)).getD 0 + 1 > 3)
    (hnc : (if p.a = r then p.b else p.a) ∉ st.connected) :
    handleReport st r sessId =
      ({ st with abuseScores := alSet st.abuseScores (if p.a = r then p.b else p.a)
                   ((alGet st.abuseScores (if p.a = r then p.b else p.a)).getD 0 + 1) },
       []) := by
  simp [handleReport, h, hhigh, hnc]

/- ------------------------------------------------------------------ -/
/- Invariant preservation per handler                                 -/
/- ------------------------------------------------------------------ -/

theorem inv_handleLeaveQueue {st : ServerState} (d : String) (hI : Inv st) :
    Inv (handleLeaveQueue st d).1 := by
  cases hfk : alGet st.filterKeyOf d with
  | none => rw [handleLeaveQueue_none hfk]; exact hI
  | some fk =>
    by_cases hemp : fk = ""
    · subst hemp
      simp only [handleLeaveQueue, hfk, if_pos rfl]
      exact hI
    · rw [handleLeaveQueue_some hfk hemp]
      have hsl : ∀ x, sessList
          ({ st with inMemoryQueues := removeFromQueue st.inMemoryQueues fk d }) x
          = sessList st x := fun _ => rfl
      refine inv_shrink (fun x k => ?_) (fun x => (congrArg List.length (hsl x)).le)
        (fun x hx => (hsl x).trans hx) hI
      show ((alGet (removeFromQueue st.inMemoryQueues fk d) k).getD []).count x
        ≤ qCount st x k
      unfold removeFromQueue
      by_cases hk : k = fk
      · subst hk
        rw [alGet_alSet_self]
        simp only [Option.getD_some]
        exact (List.filter_sublist _).count_le x
      · rw [alGet_alSet_ne _ _ _ _ hk]
        exact le_refl _

theorem inv_handleReport {st : ServerState} (r sessId : String) (hI : Inv st) :
    Inv (handleReport st r sessId).1 := by
  cases h : alGet st.activeSessions sessId with
  | none => rw [report_noop_of_none h]; exact hI
  | some p =>
    by_cases hhigh : (alGet st.abuseScores (if p.a = r then p.b else p.a)).getD 0 + 1 > 3
    · by_cases hconn : (if p.a = r then p.b else p.a) ∈ st.connected
      · rw [handleReport_kick h hhigh hconn]
        exact inv_handleDisconnect _ (inv_of_proj_eq rfl rfl hI)
      · rw [handleReport_kick_gone h hhigh hconn]
        exact inv_of_proj_eq rfl rfl hI
    · rw [handleReport_low h hhigh]
      exact inv_of_proj_eq rfl rfl hI

/-- A participant with no queue occurrence and at most one session entry
satisfies the per-participant invariant. -/
theorem pidinv_of_zero {st' : ServerState} {x : String}
    (hqc : ∀ k, qCount st' x k = 0) (hs : (sessList st' x).length ≤ 1) :
    PIdInv st' x :=
  ⟨fun k => by rw [hqc k]; omega,
   fun k1 _ p1 _ => absurd p1 (by rw [hqc k1]; omega),
   fun k hp => absurd hp (by rw [hqc k]; omega), hs⟩

/-- A participant waiting exactly once under one key and in no session
satisfies the per-participant invariant. -/
theorem pidinv_single {st' : ServerState} {x : String} (fk : String)
    (hqc : ∀ k, qCount st' x k = if k = fk then 1 else 0)
    (hs : sessList st' x = []) : PIdInv st' x := by
  refine ⟨fun k => by rw [hqc k]; split <;> omega, fun k1 k2 p1 p2 => ?_,
    fun k hp => hs, by rw [hs]; simp⟩
  rw [hqc k1] at p1
  rw [hqc k2] at p2
  by_cases h1 : k1 = fk
  · by_cases h2 : k2 = fk
    · rw [h1, h2]
    · simp [h2] at p2
  · simp [h1] at p1

/-- Invariant preservation through a requeue-shaped `join_queue` outcome:
the queue at `fk` becomes `arr'` (containing `sid` exactly once and nothing
that was not already waiting there), everything else is untouched. -/
theorem inv_requeue {st : ServerState} {sid fk : String} {arr' : List String}
    (hI : Inv st) (hq0 : ∀ k, qCount st sid k = 0)
    (hs0 : sessList st sid = [])
    (hcnt : ∀ x, x ≠ sid → arr'.count x ≤ qCount st x fk)
    (hsidc : arr'.count sid = 1)
    {st' : ServerState}
    (hqs : st'.inMemoryQueues = alSet st.inMemoryQueues fk arr')
    (hss : st'.activeSessions = st.activeSessions) :
    Inv st' := by
  have hql : ∀ k, queueList st' k = if k = fk then arr' else queueList st k := by
    intro k
    by_cases hk : k = fk
    · subst hk; simp [queueList, hqs, alGet_alSet_self]
    · simp [queueList, hqs, alGet_alSet_ne _ _ _ _ hk, hk]
  have hqc : ∀ y k, qCount st' y k = if k = fk then arr'.count y else qCount st y k := by
    intro y k
    rw [qCount, hql k]
    by_cases hk : k = fk <;> simp [hk, qCount]
  have hsl : ∀ y, sessList st' y = sessList st y := by
    intro y; simp [sessList, hss]
  intro x
  by_cases hx : x = sid
  · rw [hx]
    refine pidinv_single fk (fun k => ?_) ((hsl sid).trans hs0)
    rw [hqc sid k, hsidc, hq0 k]
  · refine pidinv_shrink (fun k => ?_) (le_of_eq (congrArg _ (hsl x)))
      (fun h => (hsl x).trans h) (hI x)
    rw [hqc x k]
    by_cases hk : k = fk
    · simpa [hk] using hcnt x hx
    · simp [hk]

/-- Invariant preservation through the matched branch of `join_queue`. -/
theorem inv_matched {st : ServerState} {sid peer fk sessId : String} {rest : List String}
    (hI : Inv st) (hq0 : ∀ k, qCount st sid k = 0) (hs0 : sessList st sid = [])
    (hfresh : alGet st.activeSessions sessId = none)
    (harr : queueList st fk = peer :: rest)
    (hps : peer ≠ sid)
    {st' : ServerState}
    (hqs : st'.inMemoryQueues = alSet st.inMemoryQueues fk rest)
    (hss : st'.activeSessions = alSet st.activeSessions sessId ⟨sid, peer⟩) :
    Inv st' := by
  have hpq : 0 < qCount st peer fk := by
    rw [qCount, harr]; simp [List.count_cons]
  have hpsess : sessList st peer = [] := (hI peer).2.2.1 fk hpq
  have hponeq : ∀ k, k ≠ fk → qCount st peer k = 0 := by
    intro k hk
    by_contra hpos
    exact hk ((hI peer).2.1 k fk (Nat.pos_of_ne_zero hpos) hpq)
  have hprest : rest.count peer = 0 := by
    have h1 := (hI peer).1 fk
    rw [qCount, harr, List.count_cons_self] at h1
    omega
  have hsrest : rest.count sid = 0 := by
    have h0 := hq0 fk
    rw [qCount, harr, List.count_cons_of_ne (Ne.symm hps)] at h0
    exact h0
  have hsess' : st'.activeSessions = st.activeSessions ++ [(sessId, ⟨sid, peer⟩)] := by
    rw [hss, alSet_of_none _ hfresh]
  have hql : ∀ k, queueList st' k = if k = fk then rest else queueList st k := by
    intro k
    by_cases hk : k = fk
    · subst hk; simp [queueList, hqs, alGet_alSet_self]
    · simp [queueList, hqs, alGet_alSet_ne _ _ _ _ hk, hk]
  have hqc : ∀ y k, qCount st' y k = if k = fk then rest.count y else qCount st y k := by
    intro y k
    rw [qCount, hql k]
    by_cases hk : k = fk <;> simp [hk, qCount]
  have hslx : ∀ x, sessList st' x =
      sessList st x ++
        (if x = sid ∨ x = peer then [(sessId, (⟨sid, peer⟩ : SessionPair))] else []) := by
    intro x
    rw [sessList, hsess', List.filter_append]
    congr 1
    by_cases hx : x = sid ∨ x = peer
    · rcases hx with hx | hx <;> rw [hx] <;> simp
    · push_neg at hx
      simp [List.filter_cons, hx.1, hx.2, Ne.symm hx.1, Ne.symm hx.2]
  intro x
  by_cases hxs : x = sid
  · rw [hxs]
    refine pidinv_of_zero (fun k => ?_) ?_
    · rw [hqc sid k, hq0 k, hsrest]
      simp
    · rw [hslx, hs0]
      simp
  · by_cases hxp : x = peer
    · rw [hxp]
      refine pidinv_of_zero (fun k => ?_) ?_
      · rw [hqc peer k, hprest]
        by_cases hk : k = fk
        · simp [hk]
        · simp [hk, hponeq k hk]
      · rw [hslx, hpsess]
        simp
    · have hsleq : sessList st' x = sessList st x := by
        rw [hslx]
        simp [hxs, hxp]
      refine pidinv_shrink (fun k => ?_) (le_of_eq (congrArg _ hsleq))
        (fun h => hsleq.trans h) (hI x)
      rw [hqc x k]
      by_cases hk : k = fk
      · rw [if_pos hk, hk, qCount, harr]
        simp [List.count_cons]
      · simp [hk]

theorem handleSignal_state (st : ServerState) (sid : String) (t : Option String)
    (d : String) : (handleSignal st sid t d).1 = st := by
  cases t with
  | none => rfl
  | some t0 => by_cases ht : t0 = "" <;> simp [handleSignal, ht]

theorem handleRelayMsg_state (st : ServerState) (sid : String) (t : Option String)
    (d : String) : (handleRelayMsg st sid t d).1 = st := by
  cases t with
  | none => rfl
  | some t0 => by_cases ht : t0 = "" <;> simp [handleRelayMsg, ht]

/-- Invariant preservation through a guarded `join_queue`. -/
theorem inv_join {st : ServerState} (sid : String)
    (fs : Option (List (String × String))) (fresh : String) (hI : Inv st)
    (hgq : freeOfQueues st sid) (hgs : freeOfSessions st sid)
    (hfresh : alGet st.activeSessions ("sess_" ++ fresh) = none) :
    Inv (handleJoinQueue st sid fs fresh).1 := by
  have hq0 : ∀ k, qCount st sid k = 0 := qCount_eq_zero_of_free hgq
  have hs0 : sessList st sid = [] := sessList_eq_nil_of_free hgs
  cases harr : queueList st (makeFilterKey fs) with
  | nil =>
    rw [handleJoinQueue_nil harr]
    refine inv_requeue hI hq0 hs0 (fun x hx => ?_) (by simp) rfl rfl
    simp [List.count_cons, Ne.symm hx]
  | cons v rest =>
    by_cases hv : v = sid
    · exfalso
      have h0 := hq0 (makeFilterKey fs)
      rw [qCount, harr, hv] at h0
      simp [List.count_cons] at h0
    · by_cases hv0 : v = ""
      · rw [hv0] at harr
        have hns : sid ≠ "" := fun h => hv (hv0.trans h.symm)
        have hsr : rest.count sid = 0 := by
          have h0 := hq0 (makeFilterKey fs)
          rw [qCount, harr, List.count_cons_of_ne hns] at h0
          exact h0
        rw [handleJoinQueue_empty_head harr]
        refine inv_requeue hI hq0 hs0 (fun x hx => ?_)
          (by simp [List.count_append, hsr]) rfl rfl
        have h1 : (rest ++ [sid]).count x = rest.count x := by
          simp [List.count_append, List.count_cons, Ne.symm hx]
        rw [qCount, harr, h1, List.count_cons]
        exact Nat.le_add_right _ _
      · obtain ⟨hq1, hq2, _, _⟩ := handleJoinQueue_matched harr hv0 hv
        exact inv_matched hI hq0 hs0 hfresh harr hv hq1 hq2

/-- Every event preserves the invariant, provided `join_queue` events are
guarded. -/
theorem inv_step (st : ServerState) (e : Event) (hI : Inv st)
    (hg : JoinGuard st e) : Inv (step st e).1 := by
  cases e with
  | connect sid =>
    by_cases hc : sid ∈ st.connected
    · simp only [step, if_pos hc]; exact hI
    · simp only [step, if_neg hc]
      exact inv_of_proj_eq rfl rfl hI
  | joinQueue sid fs fresh =>
    by_cases hc : sid ∈ st.connected
    · simp only [step, if_pos hc]
      obtain ⟨hgq, hgs, hfresh⟩ := hg
      exact inv_join sid fs fresh hI hgq hgs hfresh
    · simp only [step, if_neg hc]; exact hI
  | leaveQueue sid =>
    by_cases hc : sid ∈ st.connected
    · simp only [step, if_pos hc]; exact inv_handleLeaveQueue sid hI
    · simp only [step, if_neg hc]; exact hI
  | signal sid t d =>
    by_cases hc : sid ∈ st.connected
    · simp only [step, if_pos hc]
      rw [handleSignal_state]
      exact hI
    · simp only [step, if_neg hc]; exact hI
  | relayMsg sid t d =>
    by_cases hc : sid ∈ st.connected
    · simp only [step, if_pos hc]
      rw [handleRelayMsg_state]
      exact hI
    · simp only [step, if_neg hc]; exact hI
  | report sid sessId =>
    by_cases hc : sid ∈ st.connected
    · simp only [step, if_pos hc]; exact inv_handleReport sid sessId hI
    · simp only [step, if_neg hc]; exact hI
  | disconnect sid =>
    by_cases hc : sid ∈ st.connected
    · simp only [step, if_pos hc]; exact inv_handleDisconnect sid hI
    · simp only [step, if_neg hc]; exact hI

theorem inv_initState : Inv initState := by
  intro x
  refine ⟨fun k => ?_, fun k1 k2 p1 p2 => ?_, fun k hp => ?_, ?_⟩
  · simp [qCount, queueList, initState, alGet]
  · simp [qCount, queueList, initState, alGet] at p1
  · simp [qCount, queueList, initState, alGet] at hp
  · simp [sessList, initState]

theorem inv_run (es : List Event) (st : ServerState) (hI : Inv st)
    (hg : GuardedRun st es) : Inv (runEvents st es).1 := by
  induction es generalizing st with
  | nil => exact hI
  | cons e es ih => exact ih (step st e).1 (inv_step st e hI hg.1) hg.2

/- ------------------------------------------------------------------ -/
/- Distinct-slot (no self-match) machinery                            -/
/- ------------------------------------------------------------------ -/

theorem mem_sessList {st : ServerState} {x : String} {e : String × SessionPair} :
    e ∈ sessList st x ↔ e ∈ st.activeSessions ∧ (e.2.a == x || e.2.b == x) = true :=
  List.mem_filter

theorem emits_handleDisconnect (st : ServerState) (d : String) :
    (handleDisconnect st d).2 = (sessList st d).flatMap
      (fun e => emitTo (st.connected.filter (fun c => c != d))
        (if e.2.a = d then e.2.b else e.2.a)
        (Emit.peerLeft (if e.2.a = d then e.2.b else e.2.a))) := rfl

theorem sessOK_step (st : ServerState) (e : Event) (h : SessOK st) :
    SessOK (step st e).1 := by
  cases e with
  | connect sid =>
    by_cases hc : sid ∈ st.connected
    · simp only [step, if_pos hc]; exact h
    · simp only [step, if_neg hc]; exact h
  | joinQueue sid fs fresh =>
    by_cases hc : sid ∈ st.connected
    · simp only [step, if_pos hc]
      cases harr : queueList st (makeFilterKey fs) with
      | nil => rw [handleJoinQueue_nil harr]; exact h
      | cons v rest =>
        by_cases hv0 : v = ""
        · rw [hv0] at harr
          rw [handleJoinQueue_empty_head harr]
          exact h
        · by_cases hv : v = sid
          · rw [hv] at harr
            rw [handleJoinQueue_self harr (hv ▸ hv0)]
            exact h
          · obtain ⟨_, hq2, _, _⟩ := handleJoinQueue_matched harr hv0 hv
            intro e he
            rw [hq2] at he
            rcases mem_alSet he with he | he
            · rw [he]
              exact Ne.symm hv
            · exact h e he
    · simp only [step, if_neg hc]; exact h
  | leaveQueue sid =>
    by_cases hc : sid ∈ st.connected
    · simp only [step, if_pos hc]
      cases hfk : alGet st.filterKeyOf sid with
      | none => rw [handleLeaveQueue_none hfk]; exact h
      | some fk =>
        by_cases hemp : fk = ""
        · subst hemp
          simp only [handleLeaveQueue, hfk, if_pos rfl]
          exact h
        · rw [handleLeaveQueue_some hfk hemp]; exact h
    · simp only [step, if_neg hc]; exact h
  | signal sid t d =>
    by_cases hc : sid ∈ st.connected
    · simp only [step, if_pos hc]
      intro e he
      rw [handleSignal_state] at he
      exact h e he
    · simp only [step, if_neg hc]; exact h
  | relayMsg sid t d =>
    by_cases hc : sid ∈ st.connected
    · simp only [step, if_pos hc]
      intro e he
      rw [handleRelayMsg_state] at he
      exact h e he
    · simp only [step, if_neg hc]; exact h
  | report sid sessId =>
    by_cases hc : sid ∈ st.connected
    · simp only [step, if_pos hc]
      cases hget : alGet st.activeSessions sessId with
      | none => rw [report_noop_of_none hget]; exact h
      | some p =>
        by_cases hhigh : (alGet st.abuseScores (if p.a = sid then p.b else p.a)).getD 0 + 1 > 3
        · by_cases hco : (if p.a = sid then p.b else p.a) ∈ st.connected
          · rw [handleReport_kick hget hhigh hco]
            intro e he
            rw [sessions_handleDisconnect] at he
            exact h e (List.mem_of_mem_filter he)
          · rw [handleReport_kick_gone hget hhigh hco]; exact h
        · rw [handleReport_low hget hhigh]; exact h
    · simp only [step, if_neg hc]; exact h
  | disconnect sid =>
    by_cases hc : sid ∈ st.connected
    · simp only [step, if_pos hc]
      intro e he
      rw [sessions_handleDisconnect] at he
      exact h e (List.mem_of_mem_filter he)
    · simp only [step, if_neg hc]; exact h

theorem sessOK_run (es : List Event) (st : ServerState) (h : SessOK st) :
    SessOK (runEvents st es).1 := by
  induction es generalizing st with
  | nil => exact h
  | cons e es ih => exact ih (step st e).1 (sessOK_step st e h)

theorem sessOK_initState : SessOK initState := by
  intro e he
  simp [initState] at he

theorem brace_append_ne_all (s : String) : ("\x7b" ++ s) ≠ "all" := by
  intro h
  have hd := congrArg String.data h
  rw [String.data_append] at hd
  have h1 : "\x7b".data = ['\x7b'] := rfl
  have h2 : "all".data = ['a', 'l', 'l'] := rfl
  rw [h1, h2] at hd
  simp at hd

/- ------------------------------------------------------------------ -/
/- Claim theorems                                                     -/
/- ------------------------------------------------------------------ -/

/-- C1 counterexample: the claim fails as stated.  After `connect "X"`,
`join_queue` with filters `{a:p}` and then `join_queue` again with filters
`{b:q}`, participant "X" waits in two distinct WaitingQueues at once —
the second join never removes the first queue entry. -/
theorem C1_double_join_two_queues :
    "X" ∈ queueList (runEvents initState c1Trace).1 (makeFilterKey (some [("a", "p")])) ∧
    "X" ∈ queueList (runEvents initState c1Trace).1 (makeFilterKey (some [("b", "q")])) ∧
    makeFilterKey (some [("a", "p")]) ≠ makeFilterKey (some [("b", "q")]) := by
  decide

/-- C1 (amended): for every event sequence in which no participant issues
`join_queue` while it is already waiting in a queue or occupying a session
slot (and minted session tokens are fresh), a participant identifier
appears in at most one WaitingQueue (at most once), never in a WaitingQueue
while also in an active Session, and in at most one active Session. -/
theorem C1_guarded_queue_session_invariant (es : List Event)
    (hg : GuardedRun initState es) : Inv (runEvents initState es).1 :=
  inv_run es initState inv_initState hg

/-- C1 witness: a concrete guarded trace where the invariant is established
by the theorem. -/
theorem C1_guarded_queue_session_invariant_witness :
    Inv (runEvents initState c1wTrace).1 :=
  C1_guarded_queue_session_invariant c1wTrace (by decide)

/-- C3 counterexample: after `c3Trace` ("Y" was reported once, then
disconnected) the abuse-score entry for "Y" still exists with value 1,
although "Y" is no longer connected — the `disconnect` handler never
deletes abuse-score entries. -/
theorem C3_score_entry_persists :
    alGet (runEvents initState c3Trace).1.abuseScores "Y" = some 1 ∧
    "Y" ∉ (runEvents initState c3Trace).1.connected := by
  decide

/-- C3 (amended): handling a participant's disconnect leaves the
abuse-score map entirely unchanged; in particular the disconnecting
participant's entry is NOT removed and persists for the process lifetime. -/
theorem C3_disconnect_keeps_abuse_scores (st : ServerState) (d x : String) :
    alGet (step st (Event.disconnect d)).1.abuseScores x = alGet st.abuseScores x := by
  simp only [step]
  by_cases hc : d ∈ st.connected
  · rw [if_pos hc, abuseScores_handleDisconnect]
  · rw [if_neg hc]

/-- C7: a `report` whose sessionId resolves to no active session is a
silent no-op: the entire server state is returned unchanged and no
notification is emitted. -/
theorem C7_report_unknown_session_noop (st : ServerState) (r sessId : String)
    (h : alGet st.activeSessions sessId = none) :
    handleReport st r sessId = (st, []) :=
  report_noop_of_none h

/-- C7 witness: a concrete state with no session under id "nosess". -/
theorem C7_report_unknown_session_noop_witness :
    alGet wQueuedSt.activeSessions "nosess" = none ∧
    handleReport wQueuedSt "Q" "nosess" = (wQueuedSt, []) :=
  ⟨by decide, C7_report_unknown_session_noop wQueuedSt "Q" "nosess" (by decide)⟩

/-- C9: `signal` and `relay_msg` forward the payload byte-for-byte
(universally in the payload, which is never inspected), tagged with the
true sender's id, to a connected recipient; an unreachable recipient means
the message is dropped silently with no state change and nothing surfaced
to the sender. -/
theorem C9_relay_verbatim (st : ServerState) (s t payload : String)
    (ht : t ≠ "") :
    (t ∈ st.connected →
        handleSignal st s (some t) payload = (st, [Emit.signal t s payload]) ∧
        handleRelayMsg st s (some t) payload = (st, [Emit.relayMsg t s payload])) ∧
    (t ∉ st.connected →
        handleSignal st s (some t) payload = (st, []) ∧
        handleRelayMsg st s (some t) payload = (st, [])) := by
  constructor <;> intro hc <;>
    simp [handleSignal, handleRelayMsg, emitTo, ht, hc]

/-- C9 witness: delivery to the connected "B", silent drop for the unknown
"Z". -/
theorem C9_relay_verbatim_witness :
    handleSignal wMatchedSt "A" (some "B") "offer-sdp" =
      (wMatchedSt, [Emit.signal "B" "A" "offer-sdp"]) ∧
    handleRelayMsg wMatchedSt "A" (some "Z") "hello" = (wMatchedSt, []) :=
  ⟨((C9_relay_verbatim wMatchedSt "A" "B" "offer-sdp" (by decide)).1 (by decide)).1,
   ((C9_relay_verbatim wMatchedSt "A" "Z" "hello" (by decide)).2 (by decide)).2⟩

/-- C10: a report on an existing session from a participant occupying
neither slot is still processed, and it increments the abuse score of the
participant in slot `a` (only equality with slot `a` is ever tested). -/
theorem C10_nonmember_report_hits_slot_a (st : ServerState) (r sessId : String)
    (p : SessionPair) (hsess : alGet st.activeSessions sessId = some p)
    (hna : r ≠ p.a) (hnb : r ≠ p.b) :
    alGet (handleReport st r sessId).1.abuseScores p.a =
      some ((alGet st.abuseScores p.a).getD 0 + 1) := by
  have hne : ¬ (p.a = r) := fun h => hna h.symm
  by_cases hhigh : (alGet st.abuseScores (if p.a = r then p.b else p.a)).getD 0 + 1 > 3
  · by_cases hconn : (if p.a = r then p.b else p.a) ∈ st.connected
    · rw [handleReport_kick hsess hhigh hconn, abuseScores_handleDisconnect]
      simp only [hne, if_neg hne]
      exact alGet_alSet_self _ _ _
    · rw [handleReport_kick_gone hsess hhigh hconn]
      simp only [hne, if_neg hne]
      exact alGet_alSet_self _ _ _
  · rw [handleReport_low hsess hhigh]
    simp only [hne, if_neg hne]
    exact alGet_alSet_self _ _ _

/-- C10 witness: "Z" is in neither slot of session "s1" yet its report
bumps slot a ("A"). -/
theorem C10_nonmember_report_hits_slot_a_witness :
    alGet (handleReport wMatchedSt "Z" "s1").1.abuseScores "A" =
      some ((alGet wMatchedSt.abuseScores "A").getD 0 + 1) :=
  C10_nonmember_report_hits_slot_a wMatchedSt "Z" "s1" ⟨"A", "B"⟩
    (by decide) (by decide) (by decide)

/-- C6 counterexample: two filter objects holding the same attribute-value
pairs in different insertion order produce different FilterKeys —
`JSON.stringify` follows property insertion order, so the key computation
is not order-independent. -/
theorem C6_same_pairs_different_key :
    List.Perm [(("a" : String), ("1" : String)), ("b", "2")] [("b", "2"), ("a", "1")] ∧
    makeFilterKey (some [("a", "1"), ("b", "2")]) ≠
      makeFilterKey (some [("b", "2"), ("a", "1")]) :=
  ⟨List.Perm.swap _ _ _, by decide⟩

/-- C6 (amended): `makeFilterKey` is a pure deterministic function of the
ordered attribute list — order-dependent, not order-independent — and every
absent or empty filter set maps to the reserved key "all", which no
non-empty filter set can produce. -/
theorem C6_filter_key_normalization (fs : List (String × String)) (h : fs ≠ []) :
    makeFilterKey none = "all" ∧ makeFilterKey (some []) = "all" ∧
    makeFilterKey (some fs) ≠ "all" := by
  refine ⟨rfl, rfl, ?_⟩
  cases fs with
  | nil => exact absurd rfl h
  | cons p rest =>
    intro hcontra
    have hje : jsonOfPairs (p :: rest) = "all" := by
      simpa [makeFilterKey] using hcontra
    rw [jsonOfPairs, String.append_assoc] at hje
    exact brace_append_ne_all _ hje

/-- C6 witness: a concrete non-empty filter set avoiding the reserved
key. -/
theorem C6_filter_key_normalization_witness :
    makeFilterKey none = "all" ∧ makeFilterKey (some [("a", "1")]) ≠ "all" :=
  ⟨(C6_filter_key_normalization [("a", "1")] (by decide)).1,
   (C6_filter_key_normalization [("a", "1")] (by decide)).2.2⟩

/-- C8 counterexample: after `c8Trace`, "X" has been matched away and sits
in no WaitingQueue, yet its `leave_queue` is not a no-op — the handler only
checks that a filter key was ever recorded and still emits "left_queue". -/
theorem C8_left_emitted_when_unqueued :
    freeOfQueues (runEvents initState c8Trace).1 "X" ∧
    (step (runEvents initState c8Trace).1 (Event.leaveQueue "X")).2 =
      [Emit.leftQueue "X"] := by
  decide

/-- C8 (amended): `leave_queue` removes the participant from the queue of
its last-recorded FilterKey and emits "left"; it is a no-op only when no
FilterKey was ever recorded for the participant (when the participant is
merely absent from that queue, the queue value is unchanged but "left" is
still emitted); `removeFromQueue` is idempotent and removing an absent id
changes no queue value and raises no error. -/
theorem C8_leave_queue_spec (st : ServerState) (d : String) (qs : Queues)
    (fk x : String) (hx : x ∉ (alGet qs fk).getD []) :
    (alGet st.filterKeyOf d = none → handleLeaveQueue st d = (st, [])) ∧
    (∀ fk', alGet st.filterKeyOf d = some fk' → fk' ≠ "" →
        handleLeaveQueue st d =
          ({ st with inMemoryQueues := removeFromQueue st.inMemoryQueues fk' d },
           [Emit.leftQueue d])) ∧
    removeFromQueue (removeFromQueue qs fk x) fk x = removeFromQueue qs fk x ∧
    (∀ k, (alGet (removeFromQueue qs fk x) k).getD [] = (alGet qs k).getD []) := by
  refine ⟨fun h => handleLeaveQueue_none h,
    fun fk' h hne => handleLeaveQueue_some h hne, ?_, ?_⟩
  · show removeFromQueue (alSet qs fk _) fk x = _
    unfold removeFromQueue
    rw [alGet_alSet_self]
    simp only [Option.getD_some]
    rw [alSet_alSet, List.filter_eq_self.mpr (fun a ha => (List.mem_filter.mp ha).2)]
  · intro k
    by_cases hk : k = fk
    · subst hk
      unfold removeFromQueue
      rw [alGet_alSet_self]
      simp only [Option.getD_some]
      rw [List.filter_eq_self.mpr]
      intro a ha
      exact bne_iff_ne.mpr (fun he => hx (he ▸ ha))
    · unfold removeFromQueue
      rw [alGet_alSet_ne _ _ _ _ hk]

/-- C8 witness: "A" has recorded key "all" and is absent from that queue;
`leave_queue` still emits, and the removal is idempotent. -/
theorem C8_leave_queue_spec_witness :
    handleLeaveQueue wMatchedSt "A" =
      ({ wMatchedSt with
          inMemoryQueues := removeFromQueue wMatchedSt.inMemoryQueues "all" "A" },
       [Emit.leftQueue "A"]) ∧
    removeFromQueue (removeFromQueue wMatchedSt.inMemoryQueues "all" "A") "all" "A"
      = removeFromQueue wMatchedSt.inMemoryQueues "all" "A" :=
  ⟨(C8_leave_queue_spec wMatchedSt "A" wMatchedSt.inMemoryQueues "all" "A"
      (by decide)).2.1 "all" (by decide) (by decide),
   (C8_leave_queue_spec wMatchedSt "A" wMatchedSt.inMemoryQueues "all" "A"
      (by decide)).2.2.1⟩

/-- C4: (i) in every state reachable from the initial state, every stored
session pairs two distinct socket ids (sessions are immutable once created,
so every session ever created satisfies this); (ii) when the popped
candidate equals the requester, no session is created: the requester is
re-enqueued at the back of the same queue and receives exactly a "queued"
notification. -/
theorem C4_no_self_match :
    (∀ es : List Event, ∀ s : String, ∀ p : SessionPair,
        alGet (runEvents initState es).1.activeSessions s = some p → p.a ≠ p.b) ∧
    (∀ (st : ServerState) (sid : String) (fs : Option (List (String × String)))
        (fresh : String) (rest : List String), sid ≠ "" →
        queueList st (makeFilterKey fs) = sid :: rest →
        (handleJoinQueue st sid fs fresh).1.activeSessions = st.activeSessions ∧
        queueList (handleJoinQueue st sid fs fresh).1 (makeFilterKey fs)
          = rest ++ [sid] ∧
        (handleJoinQueue st sid fs fresh).2 = [Emit.queued sid]) := by
  constructor
  · intro es s p hget
    exact sessOK_run es initState sessOK_initState (s, p) (alGet_mem hget)
  · intro st sid fs fresh rest hsid harr
    rw [handleJoinQueue_self harr hsid]
    refine ⟨rfl, ?_, rfl⟩
    simp [queueList, alGet_alSet_self]

/-- C4 witness: the distinct-slot invariant applied to the session built by
the concrete guarded trace, and a concrete self-pop ("Q" joins while "Q"
heads the queue) that only requeues. -/
theorem C4_no_self_match_witness :
    ("Y" : String) ≠ "X" ∧
    (handleJoinQueue wQueuedSt "Q" none "u9").1.activeSessions
      = wQueuedSt.activeSessions ∧
    queueList (handleJoinQueue wQueuedSt "Q" none "u9").1 (makeFilterKey none)
      = [] ++ ["Q"] ∧
    (handleJoinQueue wQueuedSt "Q" none "u9").2 = [Emit.queued "Q"] :=
  ⟨C4_no_self_match.1 c1wTrace "sess_u2" ⟨"Y", "X"⟩ (by decide),
   C4_no_self_match.2 wQueuedSt "Q" none "u9" [] (by decide) (by decide)⟩

/-- C2: a report on an existing session increments the non-reporter
(target) score by exactly one; the "kicked" notification to the target is
emitted exactly when the accumulated count exceeds 3 (i.e. on the 4th
report), and then exactly once, with the target force-disconnected, its
session gone, and any further report on that sessionId a strict no-op;
below the threshold nothing is emitted and only the score changes. -/
theorem C2_report_threshold (st : ServerState) (r sessId target : String)
    (p : SessionPair) (ht : target = if p.a = r then p.b else p.a)
    (hsess : alGet st.activeSessions sessId = some p)
    (hkeys : (st.activeSessions.map Prod.fst).Nodup)
    (hconn : target ∈ st.connected) :
    alGet (handleReport st r sessId).1.abuseScores target =
        some ((alGet st.abuseScores target).getD 0 + 1) ∧
    (Emit.kicked target "abuse" ∈ (handleReport st r sessId).2 ↔
        (alGet st.abuseScores target).getD 0 + 1 > 3) ∧
    ((alGet st.abuseScores target).getD 0 + 1 > 3 →
        (handleReport st r sessId).2.count (Emit.kicked target "abuse") = 1 ∧
        target ∉ (handleReport st r sessId).1.connected ∧
        alGet (handleReport st r sessId).1.activeSessions sessId = none ∧
        ∀ r2, handleReport (handleReport st r sessId).1 r2 sessId =
          ((handleReport st r sessId).1, [])) ∧
    (¬ ((alGet st.abuseScores target).getD 0 + 1 > 3) →
        (handleReport st r sessId).2 = [] ∧
        (handleReport st r sessId).1 =
          { st with abuseScores := alSet st.abuseScores target
                      ((alGet st.abuseScores target).getD 0 + 1) }) := by
  subst ht
  by_cases hhigh : (alGet st.abuseScores (if p.a = r then p.b else p.a)).getD 0 + 1 > 3
  · rw [handleReport_kick hsess hhigh hconn]
    have htin : (p.a == (if p.a = r then p.b else p.a)
        || p.b == (if p.a = r then p.b else p.a)) = true := by
      by_cases har : p.a = r <;> simp [har]
    have hsessgone : alGet (handleDisconnect
        { st with abuseScores := alSet st.abuseScores (if p.a = r then p.b else p.a)
                    ((alGet st.abuseScores (if p.a = r then p.b else p.a)).getD 0 + 1) }
        (if p.a = r then p.b else p.a)).1.activeSessions sessId = none := by
      rw [sessions_handleDisconnect]
      rw [alGet_filter_nodup _ hkeys hsess]
      simp [htin]
    have hkick_not : Emit.kicked (if p.a = r then p.b else p.a) "abuse"
        ∉ (handleDisconnect
            { st with abuseScores := alSet st.abuseScores (if p.a = r then p.b else p.a)
                        ((alGet st.abuseScores (if p.a = r then p.b else p.a)).getD 0 + 1) }
            (if p.a = r then p.b else p.a)).2 := by
      intro hmem
      obtain ⟨t0, hpeq⟩ := handleDisconnect_emits_peerLeft _ _ _ hmem
      simp at hpeq
    refine ⟨?_, ?_, fun _ => ⟨?_, ?_, hsessgone,
        fun r2 => report_noop_of_none hsessgone⟩, fun hlow => absurd hhigh hlow⟩
    · rw [abuseScores_handleDisconnect]
      exact alGet_alSet_self _ _ _
    · exact ⟨fun _ => hhigh, fun _ => List.mem_cons_self _ _⟩
    · rw [List.count_cons_self, List.count_eq_zero.mpr hkick_not]
    · rw [connected_handleDisconnect]
      simp [List.mem_filter]
  · rw [handleReport_low hsess hhigh]
    refine ⟨alGet_alSet_self _ _ _, ?_, fun hh => absurd hh hhigh,
      fun _ => ⟨rfl, rfl⟩⟩
    simp [hhigh]

/-- C2 witness: "B" sits at 3 accumulated reports in session "s1"; the 4th
report by "A" kicks "B" exactly once, tears the session down, and a 5th
report is a no-op. -/
theorem C2_report_threshold_witness :
    alGet (handleReport wMatchedSt "A" "s1").1.abuseScores "B" =
      some ((alGet wMatchedSt.abuseScores "B").getD 0 + 1) ∧
    (handleReport wMatchedSt "A" "s1").2.count (Emit.kicked "B" "abuse") = 1 ∧
    "B" ∉ (handleReport wMatchedSt "A" "s1").1.connected ∧
    alGet (handleReport wMatchedSt "A" "s1").1.activeSessions "s1" = none ∧
    handleReport (handleReport wMatchedSt "A" "s1").1 "A" "s1" =
      ((handleReport wMatchedSt "A" "s1").1, []) := by
  have h := C2_report_threshold wMatchedSt "A" "s1" "B" ⟨"A", "B"⟩
    (by decide) (by decide) (by decide) (by decide)
  have h3 := h.2.2.1 (by decide)
  exact ⟨h.1, h3.1, h3.2.1, h3.2.2.1, h3.2.2.2 "A"⟩

/-- C5: disconnecting a participant whose sole session is `(s, p)` emits
"peer_left" to exactly the other session member, deletes that session (so a
later report on `s` is a strict no-op); disconnecting a participant that is
in no session emits no "peer_left" at all and leaves it in no waiting
queue. -/
theorem C5_disconnect_notifications (st : ServerState) (d s : String)
    (p : SessionPair) (hkeys : (st.activeSessions.map Prod.fst).Nodup) :
    (∀ other, other = (if p.a = d then p.b else p.a) →
        sessList st d = [(s, p)] → other ∈ st.connected → other ≠ d →
        (handleDisconnect st d).2 = [Emit.peerLeft other] ∧
        alGet (handleDisconnect st d).1.activeSessions s = none ∧
        (∀ r2, handleReport (handleDisconnect st d).1 r2 s =
          ((handleDisconnect st d).1, []))) ∧
    (sessList st d = [] →
        (handleDisconnect st d).2 = [] ∧
        ∀ k, d ∉ queueList (handleDisconnect st d).1 k) := by
  constructor
  · intro other hoth huniq hconn hne
    subst hoth
    have hmemsl : (s, p) ∈ sessList st d := by
      rw [huniq]; exact List.mem_singleton_self _
    have hmem : (s, p) ∈ st.activeSessions := (mem_sessList.mp hmemsl).1
    have hpd : (p.a == d || p.b == d) = true := (mem_sessList.mp hmemsl).2
    have hget : alGet st.activeSessions s = some p := alGet_of_mem_nodup hkeys hmem
    have hgone : alGet (handleDisconnect st d).1.activeSessions s = none := by
      rw [sessions_handleDisconnect, alGet_filter_nodup _ hkeys hget]
      simp [hpd]
    refine ⟨?_, hgone, fun r2 => report_noop_of_none hgone⟩
    rw [emits_handleDisconnect, huniq]
    simp [emitTo, List.mem_filter, hconn, hne]
  · intro hfree
    constructor
    · rw [emits_handleDisconnect, hfree]
      rfl
    · intro k
      rw [queueList_handleDisconnect]
      simp [List.mem_filter]

/-- C5 witness: disconnecting the matched "B" notifies exactly "A" and
deletes "s1"; disconnecting the queued-but-unmatched "Q" emits nothing and
leaves "Q" in no queue. -/
theorem C5_disconnect_notifications_witness :
    (handleDisconnect wMatchedSt "B").2 = [Emit.peerLeft "A"] ∧
    alGet (handleDisconnect wMatchedSt "B").1.activeSessions "s1" = none ∧
    (handleDisconnect wQueuedSt "Q").2 = [] ∧
    "Q" ∉ queueList (handleDisconnect wQueuedSt "Q").1 "all" :=
  ⟨((C5_disconnect_notifications wMatchedSt "B" "s1" ⟨"A", "B"⟩ (by decide)).1
      "A" (by decide) (by decide) (by decide) (by decide)).1,
   ((C5_disconnect_notifications wMatchedSt "B" "s1" ⟨"A", "B"⟩ (by decide)).1
      "A" (by decide) (by decide) (by decide) (by decide)).2.1,
   ((C5_disconnect_notifications wQueuedSt "Q" "s0" ⟨"u", "v"⟩ (by decide)).2
      (by decide)).1,
   ((C5_disconnect_notifications wQueuedSt "Q" "s0" ⟨"u", "v"⟩ (by decide)).2
      (by decide)).2 "all"⟩

end Twil
